import Mathlib

/-!
Verification of the attention scorer in src/TransKQV_todo.ipynb: a shallow
embedding of the single-head attention function (and of the multi-head
wrapper specified for it) over real arithmetic, together with theorems
about its functional behaviour, invariants, error behaviour and limits.
-/

open Filter

noncomputable section

/-- Error kinds named by the specification for the attention scorer. -/
inductive AttnError
  | DimensionMismatch
  | InvalidTemperature
  | MissingProjection
  deriving DecidableEq

/-- Dot product of two real vectors, `np.dot` on two 1-D arrays of the same
length (trailing elements of the longer argument are ignored, as the
embedding is only used on length-checked inputs). -/
def dot (xs ys : List ℝ) : ℝ :=
  (List.zipWith (fun a b => a * b) xs ys).sum

/-- The raw attention scores of `compute_attention`:
`attention_scores = np.dot(keys, query) / temperature`, one score per key. -/
def attnScores (keys : List (List ℝ)) (query : List ℝ) (temperature : ℝ) : List ℝ :=
  keys.map (fun k => dot k query / temperature)

/-- The softmax line of `compute_attention`:
`attention_weights = np.exp(attention_scores) / np.sum(np.exp(attention_scores))`.
No max-subtraction stabilization is performed, exactly as in the source. -/
def softmax (s : List ℝ) : List ℝ :=
  s.map (fun x => Real.exp x / (s.map Real.exp).sum)

/-- The attention weights computed by `compute_attention` for given keys,
query and temperature. -/
def attnWeights (keys : List (List ℝ)) (query : List ℝ) (temperature : ℝ) : List ℝ :=
  softmax (attnScores keys query temperature)

/-- The unscaled similarity `dot(keys[j], query)` of item j, the numerator of
the j-th attention score. -/
def scoreAt (keys : List (List ℝ)) (query : List ℝ) (j : ℕ) : ℝ :=
  dot (keys.getD j []) query

/-- NumPy elementwise multiplication of two 1-D arrays with broadcasting:
defined when the lengths agree or one of them is 1 (a singleton is repeated
along the other array); on incompatible lengths numpy raises, which the
embedding of `compute_attention` reports as a DimensionMismatch before
reaching this operation. -/
def broadcastMul (xs ys : List ℝ) : List ℝ :=
  if xs.length = ys.length then List.zipWith (fun a b => a * b) xs ys
  else if xs.length = 1 then ys.map (fun y => xs.headD 0 * y)
  else xs.map (fun x => x * ys.headD 0)

/-- The weighted sum line of `compute_attention`:
`weighted_sum = np.sum(values * attention_weights)`. -/
def attnAggregate (keys : List (List ℝ)) (query : List ℝ) (values : List ℝ)
    (temperature : ℝ) : ℝ :=
  (broadcastMul values (attnWeights keys query temperature)).sum

/-- Shallow embedding of `compute_attention(keys, query, values, temperature=1.0)`
from src/TransKQV_todo.ipynb.  The source performs no explicit validation;
the error cases are the ValueErrors numpy itself raises, modelled for a
well-formed non-empty N×d `keys` matrix: `np.dot(keys, query)` requires every
key row to have the length of `query`, and `values * attention_weights`
requires `len(values)` and `len(keys)` to be broadcast-compatible (equal, or
one of them 1).  The source contains no temperature validation of any kind. -/
def compute_attention (keys : List (List ℝ)) (query : List ℝ) (values : List ℝ)
    (temperature : ℝ := 1) : Except AttnError (List ℝ × ℝ) :=
  if ∃ k ∈ keys, k.length ≠ query.length then .error .DimensionMismatch
  else if values.length ≠ keys.length ∧ values.length ≠ 1 ∧ keys.length ≠ 1 then
    .error .DimensionMismatch
  else
    .ok (attnWeights keys query temperature, attnAggregate keys query values temperature)

/-- `np.dot(v, M)` for a length-d vector and a d×d matrix:
component j is the sum over i of `v[i] * M[i][j]`. -/
def vecMatMul (v : List ℝ) (M : List (List ℝ)) : List ℝ :=
  (List.range v.length).map (fun j => (List.zipWith (fun a row => a * row.getD j 0) v M).sum)

/-- The two hardcoded per-head projection matrices of `multi_head_attention`
in src/TransKQV_todo.ipynb (head 0 emphasizes magic, head 1 adventure). -/
def projection_matrices : List (List (List ℝ)) :=
  [[[0.8, 0.2, 0.0], [0.2, 0.7, 0.1], [0.0, 0.1, 0.9]],
   [[0.1, 0.8, 0.1], [0.1, 0.1, 0.8], [0.8, 0.1, 0.1]]]

/-- Keys after the per-head projection: `k_transformed[i] = np.dot(keys[i], P)`. -/
def projectedKeys (keys : List (List ℝ)) (P : List (List ℝ)) : List (List ℝ) :=
  keys.map (fun k => vecMatMul k P)

/-- The attention weights of one head: the single-head weights computed on the
projected query `query · P` and projected keys `keys[i] · P`. -/
def headWeights (keys : List (List ℝ)) (query : List ℝ) (P : List (List ℝ))
    (temperature : ℝ) : List ℝ :=
  attnWeights (projectedKeys keys P) (vecMatMul query P) temperature

/-- The per-head attention weights of the multi-head wrapper, one entry per
head index below `n_heads`. -/
def headWeightsList (keys : List (List ℝ)) (query : List ℝ)
    (projections : List (List (List ℝ))) (n_heads : ℕ) (temperature : ℝ) :
    List (List ℝ) :=
  (List.range n_heads).map (fun h => headWeights keys query (projections.getD h []) temperature)

/-- The final per-item output of the multi-head wrapper:
`final[i] = mean over heads h of values[i] * weights_h[i]`. -/
def finalRatings (keys : List (List ℝ)) (query : List ℝ) (values : List ℝ)
    (projections : List (List (List ℝ))) (n_heads : ℕ) (temperature : ℝ) : List ℝ :=
  (List.range keys.length).map (fun i =>
    ((headWeightsList keys query projections n_heads temperature).map
      (fun w => values.getD i 0 * w.getD i 0)).sum / (n_heads : ℝ))

/-- Modelled from the spec: `multi_head_attention` in src/TransKQV_todo.ipynb is
an unimplemented TODO scaffold (the per-head loop is missing and the body
references the undefined name `attention_per_head`), so the wrapper is modelled
from spec sections 4.2 and 7: for each head h it projects query and keys by
`Projection[h]`, obtains the per-head weights from the single-head scorer, and
returns per item the arithmetic mean across heads of `values[i] * weights_h[i]`;
it fails with MissingProjection when `n_heads` exceeds the number of configured
projection matrices, with InvalidTemperature on a non-positive temperature, and
with DimensionMismatch on any vector/matrix length inconsistency. -/
def multi_head_attention (keys : List (List ℝ)) (query : List ℝ) (values : List ℝ)
    (projections : List (List (List ℝ))) (n_heads : ℕ) (temperature : ℝ) :
    Except AttnError (List (List ℝ) × List ℝ) :=
  if projections.length < n_heads then .error .MissingProjection
  else if temperature ≤ 0 then .error .InvalidTemperature
  else if (∃ k ∈ keys, k.length ≠ query.length) ∨ values.length ≠ keys.length
      ∨ ∃ P ∈ projections.take n_heads,
          (P.length ≠ query.length ∨ ∃ row ∈ P, row.length ≠ query.length) then
    .error .DimensionMismatch
  else
    .ok (headWeightsList keys query projections n_heads temperature,
         finalRatings keys query values projections n_heads temperature)

/-- Reading an index below the length through a `map` applies the function to
the element at that index, for any defaults. -/
theorem getD_map_lt {α β : Type} (L : List α) (f : α → β) (j : ℕ) (hj : j < L.length)
    (d : α) (e : β) : (L.map f).getD j e = f (L.getD j d) := by
  rw [List.getD_eq_getElem (L.map f) e (by simpa using hj), List.getElem_map,
    List.getD_eq_getElem L d hj]

/-- Dividing every element of a list by a constant divides its sum. -/
theorem sum_map_div (L : List ℝ) (c : ℝ) : (L.map (fun x => x / c)).sum = L.sum / c := by
  induction L with
  | nil => simp
  | cons a L ih => simp [ih, add_div]

/-- The sum of the exponentials of a non-empty list is positive. -/
theorem expSum_pos (s : List ℝ) (h : s ≠ []) : 0 < (s.map Real.exp).sum := by
  apply List.sum_pos
  · intro x hx
    rcases List.mem_map.mp hx with ⟨a, _, rfl⟩
    exact Real.exp_pos a
  · simpa using h

/-- Softmax preserves the length of its input. -/
theorem softmax_length (s : List ℝ) : (softmax s).length = s.length := by
  simp [softmax]

/-- Every softmax output is non-negative. -/
theorem softmax_nonneg (s : List ℝ) (x : ℝ) (hx : x ∈ softmax s) : 0 ≤ x := by
  rcases List.mem_map.mp hx with ⟨a, ha, rfl⟩
  have hs : s ≠ [] := by
    intro h
    subst h
    simp at ha
  exact div_nonneg (Real.exp_pos a).le (expSum_pos s hs).le

/-- The softmax outputs of a non-empty list sum to 1 exactly. -/
theorem softmax_sum (s : List ℝ) (h : s ≠ []) : (softmax s).sum = 1 := by
  have hpos := expSum_pos s h
  have h2 : softmax s = (s.map Real.exp).map (fun y => y / (s.map Real.exp).sum) := by
    rw [List.map_map]
    rfl
  rw [h2, sum_map_div, div_self (ne_of_gt hpos)]

/-- Pointwise formula for a softmax entry. -/
theorem softmax_getD (s : List ℝ) (i : ℕ) (hi : i < s.length) :
    (softmax s).getD i 0 = Real.exp (s.getD i 0) / (s.map Real.exp).sum := by
  unfold softmax
  rw [getD_map_lt s _ i hi 0 0]

/-- The attention weight list has one entry per key. -/
theorem attnWeights_length (keys : List (List ℝ)) (query : List ℝ) (t : ℝ) :
    (attnWeights keys query t).length = keys.length := by
  simp [attnWeights, softmax, attnScores]

/-- Pointwise formula for an attention weight. -/
theorem attnWeights_getD (keys : List (List ℝ)) (query : List ℝ) (t : ℝ) (i : ℕ)
    (hi : i < keys.length) :
    (attnWeights keys query t).getD i 0 =
      Real.exp (dot (keys.getD i []) query / t) /
        (keys.map (fun k => Real.exp (dot k query / t))).sum := by
  unfold attnWeights
  have hlen : i < (attnScores keys query t).length := by simpa [attnScores] using hi
  rw [softmax_getD _ i hlen]
  congr 1
  · congr 1
    unfold attnScores
    rw [getD_map_lt keys _ i hi []]
  · unfold attnScores
    rw [List.map_map]
    rfl

/-- On dimension-consistent inputs, `compute_attention` takes its normal path
and returns the attention weights and the weighted sum. -/
theorem compute_attention_ok (keys : List (List ℝ)) (query values : List ℝ) (t : ℝ)
    (hk : ∀ k ∈ keys, k.length = query.length) (hv : values.length = keys.length) :
    compute_attention keys query values t =
      Except.ok (attnWeights keys query t, attnAggregate keys query values t) := by
  unfold compute_attention
  split_ifs with h1 h2
  · rcases h1 with ⟨k, hkmem, hkne⟩
    exact absurd (hk k hkmem) hkne
  · exact absurd hv h2.1
  · rfl

/-- When the lengths agree, the broadcast product of values and weights is the
plain elementwise product. -/
theorem attnAggregate_eq_zipWith (keys : List (List ℝ)) (query values : List ℝ) (t : ℝ)
    (hv : values.length = keys.length) :
    attnAggregate keys query values t =
      (List.zipWith (fun a b => a * b) values (attnWeights keys query t)).sum := by
  unfold attnAggregate broadcastMul
  rw [if_pos]
  rw [attnWeights_length]
  exact hv

/-- C1: on inputs where every key and the query share the same length,
`len(keys) == len(values)` and the temperature is positive, `compute_attention`
returns the pair of attention weights and aggregate, with
`score[i] = dot(keys[i], query) / temperature`,
`weights[i] = exp(score[i]) / sum_j exp(score[j])` (softmax with no
max-subtraction stabilization) and `aggregate = sum_i values[i] * weights[i]`. -/
theorem claim_C1 (keys : List (List ℝ)) (query values : List ℝ) (temperature : ℝ)
    (hk : ∀ k ∈ keys, k.length = query.length) (hv : values.length = keys.length)
    (ht : 0 < temperature) :
    compute_attention keys query values temperature =
      Except.ok (attnWeights keys query temperature,
        attnAggregate keys query values temperature)
    ∧ (∀ i, i < keys.length →
        (attnScores keys query temperature).getD i 0 =
          dot (keys.getD i []) query / temperature)
    ∧ (∀ i, i < keys.length →
        (attnWeights keys query temperature).getD i 0 =
          Real.exp (dot (keys.getD i []) query / temperature) /
            (keys.map (fun k => Real.exp (dot k query / temperature))).sum)
    ∧ attnAggregate keys query values temperature =
        (List.zipWith (fun v w => v * w) values (attnWeights keys query temperature)).sum := by
  refine ⟨compute_attention_ok keys query values temperature hk hv, ?_, ?_, ?_⟩
  · intro i hi
    unfold attnScores
    rw [getD_map_lt keys _ i hi []]
  · intro i hi
    exact attnWeights_getD keys query temperature i hi
  · exact attnAggregate_eq_zipWith keys query values temperature hv

/-- Witness for C1 at the spec scenario keys=[[1,0],[0,1]], query=[1,0],
values=[10,20], temperature=1. -/
theorem claim_C1_witness :
    compute_attention [[(1:ℝ),0],[0,1]] [1,0] [10,20] 1 =
      Except.ok (attnWeights [[(1:ℝ),0],[0,1]] [1,0] 1,
        attnAggregate [[(1:ℝ),0],[0,1]] [1,0] [10,20] 1) :=
  (claim_C1 [[1,0],[0,1]] [1,0] [10,20] 1 (by simp) rfl (by norm_num)).1

/-- C2: on valid inputs (consistent dimensions, equal key/value counts,
positive temperature, non-empty item set) the attention weights form a
probability distribution: one weight per item, all non-negative, summing to 1
(exactly, over the reals). -/
theorem claim_C2 (keys : List (List ℝ)) (query values : List ℝ) (temperature : ℝ)
    (hk : ∀ k ∈ keys, k.length = query.length) (hv : values.length = keys.length)
    (hne : keys ≠ []) (ht : 0 < temperature) :
    compute_attention keys query values temperature =
      Except.ok (attnWeights keys query temperature,
        attnAggregate keys query values temperature)
    ∧ (attnWeights keys query temperature).length = keys.length
    ∧ keys.length = values.length
    ∧ (∀ x ∈ attnWeights keys query temperature, 0 ≤ x)
    ∧ (attnWeights keys query temperature).sum = 1 := by
  refine ⟨compute_attention_ok keys query values temperature hk hv,
    attnWeights_length keys query temperature, hv.symm, ?_, ?_⟩
  · intro x hx
    exact softmax_nonneg (attnScores keys query temperature) x hx
  · unfold attnWeights
    apply softmax_sum
    simpa [attnScores] using hne

/-- Witness for C2 at keys=[[1,0],[0,1]], query=[1,0], values=[10,20],
temperature=1. -/
theorem claim_C2_witness :
    (attnWeights [[(1:ℝ),0],[0,1]] [1,0] 1).sum = 1 :=
  (claim_C2 [[1,0],[0,1]] [1,0] [10,20] 1 (by simp) rfl (by simp) (by norm_num)).2.2.2.2

/-- C4: both scorers are deterministic pure functions of their explicit
arguments: equal inputs give equal outputs.  In this embedding both are total
functions of exactly these arguments, so no module-level state can influence
the result and no input is mutated. -/
theorem claim_C4 (keys keys2 : List (List ℝ)) (query query2 values values2 : List ℝ)
    (projections projections2 : List (List (List ℝ))) (n_heads n_heads2 : ℕ)
    (temperature temperature2 : ℝ)
    (h1 : keys = keys2) (h2 : query = query2) (h3 : values = values2)
    (h4 : temperature = temperature2) (h5 : projections = projections2)
    (h6 : n_heads = n_heads2) :
    compute_attention keys query values temperature =
      compute_attention keys2 query2 values2 temperature2
    ∧ multi_head_attention keys query values projections n_heads temperature =
        multi_head_attention keys2 query2 values2 projections2 n_heads2 temperature2 := by
  subst h1
  subst h2
  subst h3
  subst h4
  subst h5
  subst h6
  exact ⟨rfl, rfl⟩

/-- Witness for C4 at a concrete repeated invocation. -/
theorem claim_C4_witness :
    compute_attention [[(1:ℝ),0],[0,1]] [1,0] [10,20] 1 =
      compute_attention [[(1:ℝ),0],[0,1]] [1,0] [10,20] 1 :=
  (claim_C4 [[1,0],[0,1]] [[1,0],[0,1]] [1,0] [1,0] [10,20] [10,20]
    projection_matrices projection_matrices 2 2 1 1 rfl rfl rfl rfl rfl rfl).1

/-- Counterexample to C5: the claimed "if and only if" fails in the
only-if direction.  With keys=[[1],[1]] (two items) and values=[5] (one
value), `len(keys) != len(values)`, yet the source raises nothing: numpy
broadcasts the singleton `values` across the two attention weights, so the
call succeeds instead of failing with DimensionMismatch. -/
theorem claim_C5_counterexample :
    compute_attention [[(1:ℝ)],[1]] [1] [5] 1 ≠ Except.error AttnError.DimensionMismatch
    ∧ ([(5:ℝ)]).length ≠ ([[(1:ℝ)],[1]]).length := by
  constructor
  · unfold compute_attention
    split_ifs with h1 h2
    · exfalso
      rcases h1 with ⟨k, hk, hcon⟩
      rcases List.mem_cons.mp hk with h | h
      · exact hcon (by rw [h])
      · rcases List.mem_cons.mp h with h3 | h3
        · exact hcon (by rw [h3])
        · simp at h3
    · exact absurd rfl h2.2.1
    · simp
  · simp

/-- C5 (amended): for a non-empty keys matrix, `compute_attention` fails with
DimensionMismatch if and only if some key's length differs from the query's
length, or `len(values)` is not broadcast-compatible with `len(keys)` (the
lengths differ and neither is 1); in particular keys=[[1,0,0]], query=[1,0]
does fail with DimensionMismatch. -/
theorem claim_C5 (keys : List (List ℝ)) (query values : List ℝ) (temperature : ℝ)
    (hne : keys ≠ []) :
    (compute_attention keys query values temperature =
        Except.error AttnError.DimensionMismatch ↔
      (∃ k ∈ keys, k.length ≠ query.length) ∨
        (values.length ≠ keys.length ∧ values.length ≠ 1 ∧ keys.length ≠ 1))
    ∧ compute_attention [[(1:ℝ),0,0]] [1,0] [1] 1 =
        Except.error AttnError.DimensionMismatch := by
  constructor
  · unfold compute_attention
    split_ifs with h1 h2
    · exact iff_of_true rfl (Or.inl h1)
    · exact iff_of_true rfl (Or.inr h2)
    · exact iff_of_false (by simp) (fun h => h.elim h1 h2)
  · unfold compute_attention
    rw [if_pos ⟨[1,0,0], by simp, by simp⟩]

/-- Witness for C5 (amended) at the spec scenario keys=[[1,0,0]], query=[1,0]. -/
theorem claim_C5_witness :
    compute_attention [[(1:ℝ),0,0]] [1,0] [1] 1 = Except.error AttnError.DimensionMismatch :=
  (claim_C5 [[1,0,0]] [1,0] [1] 1 (by simp)).2

/-- Counterexample to C6: a run with temperature = -1 ≤ 0 does not fail with
InvalidTemperature; the source has no temperature validation and the call
returns a normal weight/aggregate pair. -/
theorem claim_C6_counterexample :
    (-1 : ℝ) ≤ 0
    ∧ compute_attention [[(0:ℝ)]] [0] [2] (-1) = Except.ok ([1], 2) := by
  constructor
  · norm_num
  · rw [compute_attention_ok [[(0:ℝ)]] [0] [2] (-1) (by simp) rfl]
    simp [attnWeights, attnScores, attnAggregate, softmax, dot, broadcastMul]

/-- C6 (amended): `compute_attention` performs no temperature validation at
all: no input whatsoever makes it fail with InvalidTemperature (a
non-positive temperature is simply used in the score division). -/
theorem claim_C6 (keys : List (List ℝ)) (query values : List ℝ) (temperature : ℝ) :
    compute_attention keys query values temperature ≠
      Except.error AttnError.InvalidTemperature := by
  unfold compute_attention
  split_ifs <;> simp

/-- C7: the multi-head wrapper fails with MissingProjection whenever the
requested number of heads exceeds the number of configured projection
matrices. -/
theorem claim_C7 (keys : List (List ℝ)) (query values : List ℝ)
    (projections : List (List (List ℝ))) (n_heads : ℕ) (temperature : ℝ)
    (h : projections.length < n_heads) :
    multi_head_attention keys query values projections n_heads temperature =
      Except.error AttnError.MissingProjection := by
  unfold multi_head_attention
  rw [if_pos h]

/-- Witness for C7: three heads with the notebook's two configured projection
matrices fail with MissingProjection. -/
theorem claim_C7_witness :
    multi_head_attention [[(1:ℝ),0,0]] [1,0,0] [4] projection_matrices 3 1 =
      Except.error AttnError.MissingProjection :=
  claim_C7 [[1,0,0]] [1,0,0] [4] projection_matrices 3 1 (by simp [projection_matrices])

/-- The weights of the spec scenario keys=[[1,0],[0,1]], query=[1,0],
temperature=1 in closed form. -/
theorem scenarioWeights :
    attnWeights [[(1:ℝ),0],[0,1]] [1,0] 1 =
      [Real.exp 1 / (Real.exp 1 + 1), 1 / (Real.exp 1 + 1)] := by
  have hsc : attnScores [[(1:ℝ),0],[0,1]] [1,0] 1 = [1, 0] := by
    norm_num [attnScores, dot]
  rw [attnWeights, hsc]
  norm_num [softmax, Real.exp_zero]

/-- The aggregate of the spec scenario with values=[10,20] in closed form. -/
theorem scenarioAggregate :
    attnAggregate [[(1:ℝ),0],[0,1]] [1,0] [10,20] 1 =
      10 * (Real.exp 1 / (Real.exp 1 + 1)) + 20 * (1 / (Real.exp 1 + 1)) := by
  rw [attnAggregate, scenarioWeights]
  norm_num [broadcastMul]

/-- Counterexample to C9: in the scenario keys=[[1,0],[0,1]], query=[1,0],
values=[10,20], temperature=1 the aggregate lies strictly between 12.68 and
12.70 (it is (10e+20)/(e+1) = 12.6894...), so it is not approximately 12.62 as
the claim states (the true value is off by about 0.07, far beyond the rounding
of the stated three-decimal weights). -/
theorem claim_C9_counterexample :
    12.68 < attnAggregate [[(1:ℝ),0],[0,1]] [1,0] [10,20] 1
    ∧ attnAggregate [[(1:ℝ),0],[0,1]] [1,0] [10,20] 1 < 12.70
    ∧ compute_attention [[(1:ℝ),0],[0,1]] [1,0] [10,20] 1 =
        Except.ok (attnWeights [[(1:ℝ),0],[0,1]] [1,0] 1,
          attnAggregate [[(1:ℝ),0],[0,1]] [1,0] [10,20] 1) := by
  have h1 : (2.7182818283:ℝ) < Real.exp 1 := Real.exp_one_gt_d9
  have h2 : Real.exp 1 < 2.7182818286 := Real.exp_one_lt_d9
  have hpos : (0:ℝ) < Real.exp 1 + 1 := by positivity
  have key : Real.exp 1 / (Real.exp 1 + 1) * (Real.exp 1 + 1) = Real.exp 1 :=
    div_mul_cancel₀ _ (ne_of_gt hpos)
  have key2 : 1 / (Real.exp 1 + 1) * (Real.exp 1 + 1) = 1 :=
    div_mul_cancel₀ _ (ne_of_gt hpos)
  refine ⟨?_, ?_, compute_attention_ok [[(1:ℝ),0],[0,1]] [1,0] [10,20] 1 (by simp) rfl⟩
  · rw [scenarioAggregate]
    nlinarith [key, key2, h1, h2, hpos]
  · rw [scenarioAggregate]
    nlinarith [key, key2, h1, h2, hpos]

/-- C9 (amended): in the scenario keys=[[1,0],[0,1]], query=[1,0],
values=[10,20], temperature=1, the scores are [1, 0], the weights are
approximately [0.731, 0.269], and the aggregate is approximately 12.69
(not 12.62). -/
theorem claim_C9 :
    attnScores [[(1:ℝ),0],[0,1]] [1,0] 1 = [1, 0]
    ∧ |(attnWeights [[(1:ℝ),0],[0,1]] [1,0] 1).getD 0 0 - 0.731| < 0.001
    ∧ |(attnWeights [[(1:ℝ),0],[0,1]] [1,0] 1).getD 1 0 - 0.269| < 0.001
    ∧ |attnAggregate [[(1:ℝ),0],[0,1]] [1,0] [10,20] 1 - 12.69| < 0.001
    ∧ compute_attention [[(1:ℝ),0],[0,1]] [1,0] [10,20] 1 =
        Except.ok (attnWeights [[(1:ℝ),0],[0,1]] [1,0] 1,
          attnAggregate [[(1:ℝ),0],[0,1]] [1,0] [10,20] 1) := by
  have h1 : (2.7182818283:ℝ) < Real.exp 1 := Real.exp_one_gt_d9
  have h2 : Real.exp 1 < 2.7182818286 := Real.exp_one_lt_d9
  have hpos : (0:ℝ) < Real.exp 1 + 1 := by positivity
  have key : Real.exp 1 / (Real.exp 1 + 1) * (Real.exp 1 + 1) = Real.exp 1 :=
    div_mul_cancel₀ _ (ne_of_gt hpos)
  have key2 : 1 / (Real.exp 1 + 1) * (Real.exp 1 + 1) = 1 :=
    div_mul_cancel₀ _ (ne_of_gt hpos)
  refine ⟨by norm_num [attnScores, dot], ?_, ?_, ?_,
    compute_attention_ok [[(1:ℝ),0],[0,1]] [1,0] [10,20] 1 (by simp) rfl⟩
  · rw [scenarioWeights]
    rw [show ([Real.exp 1 / (Real.exp 1 + 1), 1 / (Real.exp 1 + 1)].getD 0 0) =
      Real.exp 1 / (Real.exp 1 + 1) from rfl]
    rw [abs_lt]
    constructor
    · nlinarith [key, h1, h2, hpos]
    · nlinarith [key, h1, h2, hpos]
  · rw [scenarioWeights]
    rw [show ([Real.exp 1 / (Real.exp 1 + 1), 1 / (Real.exp 1 + 1)].getD 1 0) =
      1 / (Real.exp 1 + 1) from rfl]
    rw [abs_lt]
    constructor
    · nlinarith [key2, h1, h2, hpos]
    · nlinarith [key2, h1, h2, hpos]
  · rw [scenarioAggregate, abs_lt]
    constructor
    · nlinarith [key, key2, h1, h2, hpos]
    · nlinarith [key, key2, h1, h2, hpos]

/-- A pointwise lower bound on one factor bounds the sum of elementwise
products from below, scaled by the sum of the non-negative other factor. -/
theorem zipWith_mul_sum_ge (v w : List ℝ) (m : ℝ) :
    v.length = w.length → (∀ x ∈ w, 0 ≤ x) → (∀ x ∈ v, m ≤ x) →
    m * w.sum ≤ (List.zipWith (fun a b => a * b) v w).sum := by
  induction v generalizing w with
  | nil =>
    intro hlen _ _
    cases w with
    | nil => simp
    | cons b w => simp at hlen
  | cons a v ih =>
    intro hlen hw hm
    cases w with
    | nil => simp at hlen
    | cons b w =>
      simp only [List.zipWith_cons_cons, List.sum_cons, mul_add]
      have hb := hw b (List.mem_cons_self b w)
      have ha := hm a (List.mem_cons_self a v)
      have h1 : m * b ≤ a * b := mul_le_mul_of_nonneg_right ha hb
      have h2 : m * w.sum ≤ (List.zipWith (fun a b => a * b) v w).sum :=
        ih w (by simpa using hlen) (fun x hx => hw x (List.mem_cons_of_mem b hx))
          (fun x hx => hm x (List.mem_cons_of_mem a hx))
      exact add_le_add h1 h2

/-- A pointwise upper bound on one factor bounds the sum of elementwise
products from above, scaled by the sum of the non-negative other factor. -/
theorem zipWith_mul_sum_le (v w : List ℝ) (M : ℝ) :
    v.length = w.length → (∀ x ∈ w, 0 ≤ x) → (∀ x ∈ v, x ≤ M) →
    (List.zipWith (fun a b => a * b) v w).sum ≤ M * w.sum := by
  induction v generalizing w with
  | nil =>
    intro hlen _ _
    cases w with
    | nil => simp
    | cons b w => simp at hlen
  | cons a v ih =>
    intro hlen hw hM
    cases w with
    | nil => simp at hlen
    | cons b w =>
      simp only [List.zipWith_cons_cons, List.sum_cons, mul_add]
      have hb := hw b (List.mem_cons_self b w)
      have ha := hM a (List.mem_cons_self a v)
      have h1 : a * b ≤ M * b := mul_le_mul_of_nonneg_right ha hb
      have h2 : (List.zipWith (fun a b => a * b) v w).sum ≤ M * w.sum :=
        ih w (by simpa using hlen) (fun x hx => hw x (List.mem_cons_of_mem b hx))
          (fun x hx => hM x (List.mem_cons_of_mem a hx))
      exact add_le_add h1 h2

/-- C10: on a non-empty valid input the aggregate is a convex combination of
the values: any lower bound of the values bounds it from below and any upper
bound from above (in particular min(values) ≤ aggregate ≤ max(values)). -/
theorem claim_C10 (keys : List (List ℝ)) (query values : List ℝ) (temperature : ℝ)
    (m M : ℝ)
    (hk : ∀ k ∈ keys, k.length = query.length) (hv : values.length = keys.length)
    (hne : keys ≠ []) (ht : 0 < temperature)
    (hm : ∀ v ∈ values, m ≤ v) (hM : ∀ v ∈ values, v ≤ M) :
    m ≤ attnAggregate keys query values temperature
    ∧ attnAggregate keys query values temperature ≤ M := by
  have hlen : values.length = (attnWeights keys query temperature).length := by
    rw [attnWeights_length]
    exact hv
  have hw0 : ∀ x ∈ attnWeights keys query temperature, 0 ≤ x :=
    fun x hx => softmax_nonneg (attnScores keys query temperature) x hx
  have hsum : (attnWeights keys query temperature).sum = 1 := by
    unfold attnWeights
    apply softmax_sum
    simpa [attnScores] using hne
  rw [attnAggregate_eq_zipWith keys query values temperature hv]
  constructor
  · have h := zipWith_mul_sum_ge values (attnWeights keys query temperature) m hlen hw0 hm
    rwa [hsum, mul_one] at h
  · have h := zipWith_mul_sum_le values (attnWeights keys query temperature) M hlen hw0 hM
    rwa [hsum, mul_one] at h

/-- Witness for C10: in the spec scenario the aggregate is at least the
minimum value 10. -/
theorem claim_C10_witness :
    (10:ℝ) ≤ attnAggregate [[(1:ℝ),0],[0,1]] [1,0] [10,20] 1 :=
  (claim_C10 [[1,0],[0,1]] [1,0] [10,20] 1 10 20 (by simp) rfl (by simp) (by norm_num)
    (by norm_num) (by norm_num)).1

/-- Reading an index below `n` through a map over `List.range n` applies the
function to the index. -/
theorem getD_range_map {β : Type} (n : ℕ) (f : ℕ → β) (h : ℕ) (hh : h < n) (e : β) :
    ((List.range n).map f).getD h e = f h := by
  rw [getD_map_lt (List.range n) f h (by simpa using hh) 0 e]
  congr 1
  rw [List.getD_eq_getElem (List.range n) 0 (by simpa using hh), List.getElem_range]

/-- A projected vector has the length of the input vector. -/
theorem vecMatMul_length (v : List ℝ) (M : List (List ℝ)) :
    (vecMatMul v M).length = v.length := by
  simp [vecMatMul]

/-- On dimension-consistent inputs with a positive temperature and enough
projections, the multi-head wrapper takes its normal path. -/
theorem multi_head_attention_ok (keys : List (List ℝ)) (query values : List ℝ)
    (projections : List (List (List ℝ))) (n_heads : ℕ) (temperature : ℝ)
    (hk : ∀ k ∈ keys, k.length = query.length) (hv : values.length = keys.length)
    (ht : 0 < temperature) (hn : n_heads ≤ projections.length)
    (hP : ∀ P ∈ projections.take n_heads,
      P.length = query.length ∧ ∀ row ∈ P, row.length = query.length) :
    multi_head_attention keys query values projections n_heads temperature =
      Except.ok (headWeightsList keys query projections n_heads temperature,
        finalRatings keys query values projections n_heads temperature) := by
  unfold multi_head_attention
  rw [if_neg (Nat.not_lt.mpr hn), if_neg (not_le.mpr ht), if_neg]
  intro hcon
  rcases hcon with h | h | h
  · rcases h with ⟨k, hkm, hke⟩
    exact hke (hk k hkm)
  · exact h hv
  · rcases h with ⟨P, hPm, hPe⟩
    rcases hPe with h2 | h2
    · exact h2 (hP P hPm).1
    · rcases h2 with ⟨row, hrm, hre⟩
      exact hre ((hP P hPm).2 row hrm)

/-- C3: on valid inputs the multi-head wrapper projects query and keys by each
head's projection matrix, obtains the per-head weights from the single-head
scorer on the projected inputs, and outputs per item the mean across heads of
`values[i] * weights_h[i]`; for one head this equals the single-head
`values[i] * weights[i]` exactly. -/
theorem claim_C3 (keys : List (List ℝ)) (query values : List ℝ)
    (projections : List (List (List ℝ))) (n_heads : ℕ) (temperature : ℝ)
    (hk : ∀ k ∈ keys, k.length = query.length) (hv : values.length = keys.length)
    (ht : 0 < temperature) (hn : n_heads ≤ projections.length)
    (hP : ∀ P ∈ projections.take n_heads,
      P.length = query.length ∧ ∀ row ∈ P, row.length = query.length) :
    multi_head_attention keys query values projections n_heads temperature =
      Except.ok (headWeightsList keys query projections n_heads temperature,
        finalRatings keys query values projections n_heads temperature)
    ∧ (∀ h, h < n_heads →
        (headWeightsList keys query projections n_heads temperature).getD h [] =
          attnWeights (projectedKeys keys (projections.getD h []))
            (vecMatMul query (projections.getD h [])) temperature
        ∧ compute_attention (projectedKeys keys (projections.getD h []))
            (vecMatMul query (projections.getD h [])) values temperature =
          Except.ok ((headWeightsList keys query projections n_heads temperature).getD h [],
            attnAggregate (projectedKeys keys (projections.getD h []))
              (vecMatMul query (projections.getD h [])) values temperature))
    ∧ (∀ i, i < keys.length →
        (finalRatings keys query values projections n_heads temperature).getD i 0 =
          ((List.range n_heads).map (fun h => values.getD i 0 *
            (headWeights keys query (projections.getD h []) temperature).getD i 0)).sum /
            (n_heads : ℝ))
    ∧ (n_heads = 1 → ∀ i, i < keys.length →
        (finalRatings keys query values projections n_heads temperature).getD i 0 =
          values.getD i 0 *
            (attnWeights (projectedKeys keys (projections.getD 0 []))
              (vecMatMul query (projections.getD 0 [])) temperature).getD i 0) := by
  have hfinal : ∀ i, i < keys.length →
      (finalRatings keys query values projections n_heads temperature).getD i 0 =
        ((List.range n_heads).map (fun h => values.getD i 0 *
          (headWeights keys query (projections.getD h []) temperature).getD i 0)).sum /
          (n_heads : ℝ) := by
    intro i hi
    unfold finalRatings
    rw [getD_range_map keys.length _ i hi 0]
    unfold headWeightsList
    rw [List.map_map]
    rfl
  refine ⟨multi_head_attention_ok keys query values projections n_heads temperature
    hk hv ht hn hP, ?_, hfinal, ?_⟩
  · intro h hh
    have hget : (headWeightsList keys query projections n_heads temperature).getD h [] =
        attnWeights (projectedKeys keys (projections.getD h []))
          (vecMatMul query (projections.getD h [])) temperature := by
      unfold headWeightsList
      rw [getD_range_map n_heads _ h hh []]
      rfl
    refine ⟨hget, ?_⟩
    rw [hget]
    apply compute_attention_ok
    · intro k2 hk2
      rcases List.mem_map.mp hk2 with ⟨k, hkm, rfl⟩
      rw [vecMatMul_length, vecMatMul_length]
      exact hk k hkm
    · rw [show (projectedKeys keys (projections.getD h [])).length = keys.length by
        simp [projectedKeys]]
      exact hv
  · intro h1 i hi
    subst h1
    rw [hfinal i hi]
    rw [show List.range 1 = [0] by decide]
    simp [headWeights]

/-- Witness for C3 at a one-head instance with a 1×1 projection. -/
theorem claim_C3_witness :
    multi_head_attention [[(1:ℝ)],[0]] [1] [3,4] [[[2]]] 1 1 =
      Except.ok (headWeightsList [[(1:ℝ)],[0]] [1] [[[2]]] 1 1,
        finalRatings [[(1:ℝ)],[0]] [1] [3,4] [[[2]]] 1 1) :=
  (claim_C3 [[1],[0]] [1] [3,4] [[[2]]] 1 1 (by simp) rfl (by norm_num) (by norm_num)
    (by simp)).1

/-- A list sum written as a sum over the range of its indices. -/
theorem list_sum_eq_range_sum (L : List ℝ) :
    L.sum = Finset.sum (Finset.range L.length) (fun j => L.getD j 0) := by
  induction L with
  | nil => simp
  | cons a L ih =>
    rw [List.sum_cons, List.length_cons, Finset.sum_range_succ', ih]
    simp [add_comm]

/-- Pointwise formula for an attention weight with the normalizing sum
indexed over the item positions. -/
theorem attnWeights_getD_range (keys : List (List ℝ)) (query : List ℝ) (t : ℝ) (i : ℕ)
    (hi : i < keys.length) :
    (attnWeights keys query t).getD i 0 =
      Real.exp (scoreAt keys query i / t) /
        Finset.sum (Finset.range keys.length)
          (fun j => Real.exp (scoreAt keys query j / t)) := by
  rw [attnWeights_getD keys query t i hi]
  unfold scoreAt
  congr 1
  rw [list_sum_eq_range_sum, List.length_map]
  apply Finset.sum_congr rfl
  intro j hj
  rw [getD_map_lt keys _ j (Finset.mem_range.mp hj) []]

/-- As the divisor grows, `exp (c / t)` tends to 1. -/
theorem tendsto_exp_div_atTop (c : ℝ) :
    Tendsto (fun t : ℝ => Real.exp (c / t)) atTop (nhds 1) := by
  have h1 : Tendsto (fun t : ℝ => c / t) atTop (nhds 0) :=
    tendsto_const_nhds.div_atTop tendsto_id
  have h2 := (Real.continuous_exp.tendsto 0).comp h1
  simpa using h2

/-- As the divisor decreases to 0 from the right and c is negative,
`exp (c / t)` tends to 0. -/
theorem tendsto_exp_div_zero_right (c : ℝ) (hc : c < 0) :
    Tendsto (fun t : ℝ => Real.exp (c / t)) (nhdsWithin 0 (Set.Ioi 0)) (nhds 0) := by
  have h1 : Tendsto (fun t : ℝ => t⁻¹) (nhdsWithin 0 (Set.Ioi 0)) atTop :=
    tendsto_inv_zero_atTop
  have h2 : Tendsto (fun t : ℝ => c * t⁻¹) (nhdsWithin 0 (Set.Ioi 0)) atBot :=
    Tendsto.const_mul_atTop_of_neg hc h1
  rw [show (fun t : ℝ => Real.exp (c / t)) = Real.exp ∘ (fun t : ℝ => c * t⁻¹) by
    funext t
    simp [Function.comp, div_eq_mul_inv]]
  exact Real.tendsto_exp_atBot.comp h2

/-- C8: for fixed keys and query, as the temperature grows every attention
weight tends to 1/N (the uniform distribution), and as the temperature
decreases to 0 from the right the weights tend to the one-hot distribution on
the unique item with the maximum score. -/
theorem claim_C8 (keys : List (List ℝ)) (query : List ℝ) (i m : ℕ)
    (hi : i < keys.length) (hm : m < keys.length)
    (hmax : ∀ j, j < keys.length → j ≠ m →
      scoreAt keys query j < scoreAt keys query m) :
    Tendsto (fun t => (attnWeights keys query t).getD i 0) atTop
      (nhds (1 / (keys.length : ℝ)))
    ∧ Tendsto (fun t => (attnWeights keys query t).getD i 0)
        (nhdsWithin 0 (Set.Ioi 0)) (nhds (if i = m then 1 else 0)) := by
  have hN0 : (keys.length : ℝ) ≠ 0 :=
    Nat.cast_ne_zero.mpr (Nat.pos_iff_ne_zero.mp (Nat.lt_of_le_of_lt (Nat.zero_le i) hi))
  have heq : ∀ t : ℝ, (attnWeights keys query t).getD i 0 =
      Real.exp (scoreAt keys query i / t) /
        Finset.sum (Finset.range keys.length)
          (fun j => Real.exp (scoreAt keys query j / t)) :=
    fun t => attnWeights_getD_range keys query t i hi
  constructor
  · rw [tendsto_congr heq]
    have hden : Tendsto
        (fun t : ℝ => Finset.sum (Finset.range keys.length)
          (fun j => Real.exp (scoreAt keys query j / t))) atTop
        (nhds (keys.length : ℝ)) := by
      have h := tendsto_finset_sum (Finset.range keys.length)
        (fun j _ => tendsto_exp_div_atTop (scoreAt keys query j))
      simpa using h
    exact Tendsto.div (tendsto_exp_div_atTop _) hden hN0
  · have hshift : ∀ t : ℝ, (attnWeights keys query t).getD i 0 =
        Real.exp ((scoreAt keys query i - scoreAt keys query m) / t) /
          Finset.sum (Finset.range keys.length)
            (fun j => Real.exp ((scoreAt keys query j - scoreAt keys query m) / t)) := by
      intro t
      rw [heq t]
      have hfac : ∀ j, Real.exp (scoreAt keys query j / t) =
          Real.exp ((scoreAt keys query j - scoreAt keys query m) / t) *
            Real.exp (scoreAt keys query m / t) := by
        intro j
        rw [← Real.exp_add, div_add_div_same, sub_add_cancel]
      rw [hfac i]
      rw [show Finset.sum (Finset.range keys.length)
            (fun j => Real.exp (scoreAt keys query j / t)) =
          Finset.sum (Finset.range keys.length)
            (fun j => Real.exp ((scoreAt keys query j - scoreAt keys query m) / t)) *
            Real.exp (scoreAt keys query m / t) by
        rw [Finset.sum_mul]
        exact Finset.sum_congr rfl (fun j _ => hfac j)]
      rw [mul_div_mul_right _ _ (Real.exp_ne_zero _)]
    rw [tendsto_congr hshift]
    have hnum : Tendsto
        (fun t : ℝ => Real.exp ((scoreAt keys query i - scoreAt keys query m) / t))
        (nhdsWithin 0 (Set.Ioi 0)) (nhds (if i = m then 1 else 0)) := by
      by_cases him : i = m
      · subst him
        simp only [sub_self, zero_div, Real.exp_zero, if_pos rfl]
        exact tendsto_const_nhds
      · rw [if_neg him]
        exact tendsto_exp_div_zero_right _ (sub_neg.mpr (hmax i hi him))
    have hden : Tendsto
        (fun t : ℝ => Finset.sum (Finset.range keys.length)
          (fun j => Real.exp ((scoreAt keys query j - scoreAt keys query m) / t)))
        (nhdsWithin 0 (Set.Ioi 0)) (nhds 1) := by
      have hper : ∀ j ∈ Finset.range keys.length,
          Tendsto (fun t : ℝ => Real.exp ((scoreAt keys query j - scoreAt keys query m) / t))
            (nhdsWithin 0 (Set.Ioi 0)) (nhds (if j = m then 1 else 0)) := by
        intro j hj
        by_cases hjm : j = m
        · subst hjm
          simp only [sub_self, zero_div, Real.exp_zero, if_pos rfl]
          exact tendsto_const_nhds
        · rw [if_neg hjm]
          exact tendsto_exp_div_zero_right _
            (sub_neg.mpr (hmax j (Finset.mem_range.mp hj) hjm))
      have h := tendsto_finset_sum (Finset.range keys.length) hper
      simpa [Finset.mem_range.mpr hm] using h
    have h := Tendsto.div hnum hden one_ne_zero
    simpa using h

/-- Witness for C8 at keys=[[1],[0]], query=[1], where item 0 has the unique
maximum score. -/
theorem claim_C8_witness :
    Tendsto (fun t => (attnWeights [[(1:ℝ)],[0]] [1] t).getD 0 0) atTop
      (nhds (1 / (([[(1:ℝ)],[0]] : List (List ℝ)).length : ℝ)))
    ∧ Tendsto (fun t => (attnWeights [[(1:ℝ)],[0]] [1] t).getD 0 0)
        (nhdsWithin 0 (Set.Ioi 0)) (nhds (if 0 = 0 then 1 else 0)) :=
  claim_C8 [[1],[0]] [1] 0 0 (by norm_num) (by norm_num)
    (by
      intro j hj hne
      have hj2 : j < 2 := by simpa using hj
      interval_cases j
      · exact absurd rfl hne
      · norm_num [scoreAt, dot])


end
